import Mathlib

/-!
Shallow embedding of `SqliteCryptoStorageProvider` from matrix-bot-sdk.

Each SQLite table is a list of rows kept in rowid (insertion) order.
Prepared statements become list operations:
* `INSERT ... ON CONFLICT ... DO UPDATE` is `upsertBy`: the first row with
  the conflicting primary key is updated in place, otherwise the fresh row
  is appended;
* `INSERT ... ON CONFLICT ... DO NOTHING` leaves the table unchanged when
  the primary key is already present, otherwise appends;
* `UPDATE ... WHERE ...` maps over the rows;
* `.get()` on a SELECT without ORDER BY returns the first matching row in
  table order (`List.find?`); `.all()` returns all of them (`List.filter`);
* `ORDER BY last_decryption_ts DESC LIMIT 1` returns a row whose timestamp
  is maximal among the matches (`maxByTs`).

TINYINT columns only ever hold 0 or 1 in this class (`current`,
`outdated`) and are modelled as `Bool`; NUMBER/INT columns are `Int`.
`JSON.stringify`/`JSON.parse` round-trips of plain data are modelled as
the identity, so serialized blobs are stored as their structured values.
-/

/-- A user device record (`UserDevice` in `models/Crypto`): the fields this
layer reads (`user_id`, `device_id`) plus the rest of the JSON payload,
kept opaque in `keys`. -/
structure UserDevice where
  user_id : String
  device_id : String
  keys : String
deriving DecidableEq

/-- An encryption room config object (the `EncryptionEventContent` blob
stored per room); its internal shape is opaque to the store. -/
structure RoomConfig where
  payload : String
deriving DecidableEq

/-- The `IOutboundGroupSession` interface from `models/Crypto`. -/
structure IOutboundGroupSession where
  sessionId : String
  roomId : String
  pickled : String
  isCurrent : Bool
  usesLeft : Int
  expiresTs : Int
deriving DecidableEq

/-- The `IOlmSession` interface from `models/Crypto` (the fields this
class reads and writes). -/
structure IOlmSession where
  sessionId : String
  pickled : String
  lastDecryptionTs : Int
deriving DecidableEq

/-- A row of the `rooms` table. -/
structure RoomRow where
  room_id : String
  config : RoomConfig
deriving DecidableEq

/-- A row of the `users` table. -/
structure UserRow where
  user_id : String
  outdated : Bool
deriving DecidableEq

/-- A row of the `user_devices` table. -/
structure UserDeviceRow where
  user_id : String
  device_id : String
  device : UserDevice
deriving DecidableEq

/-- A row of the `outbound_group_sessions` table. -/
structure OutboundGroupSessionRow where
  session_id : String
  room_id : String
  current : Bool
  pickled : String
  uses_left : Int
  expires_ts : Int
deriving DecidableEq

/-- A row of the `sent_outbound_group_sessions` table; all five columns
form the primary key. -/
structure SentOutboundGroupSessionRow where
  session_id : String
  room_id : String
  session_index : Int
  user_id : String
  device_id : String
deriving DecidableEq

/-- A row of the `olm_sessions` table. -/
structure OlmSessionRow where
  user_id : String
  device_id : String
  session_id : String
  last_decryption_ts : Int
  pickled : String
deriving DecidableEq

/-- `INSERT ... ON CONFLICT ... DO UPDATE`: update the first row matching
the primary-key predicate `k` in place, or append the fresh row. -/
def upsertBy {α : Type} (k : α → Bool) (upd : α → α) (fresh : α) : List α → List α
  | [] => [fresh]
  | a :: l => if k a then upd a :: l else a :: upsertBy k upd fresh l

/-- The database state of one `SqliteCryptoStorageProvider`: the seven
tables created in the constructor, each in rowid order. -/
structure SqliteCryptoStorageProvider where
  kv : List (String × String)
  rooms : List RoomRow
  users : List UserRow
  user_devices : List UserDeviceRow
  outbound_group_sessions : List OutboundGroupSessionRow
  sent_outbound_group_sessions : List SentOutboundGroupSessionRow
  olm_sessions : List OlmSessionRow
deriving DecidableEq

namespace SqliteCryptoStorageProvider

/-- A freshly constructed provider: all tables empty. -/
def empty : SqliteCryptoStorageProvider := ⟨[], [], [], [], [], [], []⟩

/-- The `kvUpsert` prepared statement. -/
def kvUpsert (st : SqliteCryptoStorageProvider) (name value : String) :
    SqliteCryptoStorageProvider :=
  { st with kv := upsertBy (fun p => p.1 == name) (fun p => (p.1, value)) (name, value) st.kv }

/-- The `kvSelect` prepared statement followed by `.get()`. -/
def kvSelect (st : SqliteCryptoStorageProvider) (name : String) : Option (String × String) :=
  st.kv.find? (fun p => p.1 == name)

/-- `setDeviceId`. -/
def setDeviceId (st : SqliteCryptoStorageProvider) (deviceId : String) :
    SqliteCryptoStorageProvider :=
  kvUpsert st "deviceId" deviceId

/-- `getDeviceId`: `row?.value`. -/
def getDeviceId (st : SqliteCryptoStorageProvider) : Option String :=
  (kvSelect st "deviceId").map (·.2)

/-- `setPickleKey`. -/
def setPickleKey (st : SqliteCryptoStorageProvider) (pickleKey : String) :
    SqliteCryptoStorageProvider :=
  kvUpsert st "pickleKey" pickleKey

/-- `getPickleKey`. -/
def getPickleKey (st : SqliteCryptoStorageProvider) : Option String :=
  (kvSelect st "pickleKey").map (·.2)

/-- `setPickledAccount`. -/
def setPickledAccount (st : SqliteCryptoStorageProvider) (pickled : String) :
    SqliteCryptoStorageProvider :=
  kvUpsert st "pickled" pickled

/-- `getPickledAccount`. -/
def getPickledAccount (st : SqliteCryptoStorageProvider) : Option String :=
  (kvSelect st "pickled").map (·.2)

/-- `storeRoom`: the `roomUpsert` statement (config serialized at the
boundary, modelled as the structured value itself). -/
def storeRoom (st : SqliteCryptoStorageProvider) (roomId : String) (config : RoomConfig) :
    SqliteCryptoStorageProvider :=
  { st with rooms := (upsertBy (fun r => r.room_id == roomId)
      (fun r => { r with config := config }) ⟨roomId, config⟩ st.rooms) }

/-- `getRoom`: `roomSelect` + `.get()`, parsing the config back. -/
def getRoom (st : SqliteCryptoStorageProvider) (roomId : String) : Option RoomConfig :=
  (st.rooms.find? (fun r => r.room_id == roomId)).map (·.config)

/-- The `userUpsert` prepared statement. -/
def userUpsert (st : SqliteCryptoStorageProvider) (userId : String) (outdated : Bool) :
    SqliteCryptoStorageProvider :=
  { st with users := (upsertBy (fun r => r.user_id == userId)
      (fun r => { r with outdated := outdated }) ⟨userId, outdated⟩ st.users) }

/-- The `userDevicesDelete` prepared statement. -/
def userDevicesDelete (st : SqliteCryptoStorageProvider) (userId : String) :
    SqliteCryptoStorageProvider :=
  { st with user_devices := st.user_devices.filter (fun r => !(r.user_id == userId)) }

/-- The `userDeviceUpsert` prepared statement (keyed by the caller's
`userId` and the device's own `device_id`). -/
def userDeviceUpsert (st : SqliteCryptoStorageProvider) (userId : String) (device : UserDevice) :
    SqliteCryptoStorageProvider :=
  { st with user_devices := (upsertBy
      (fun r => r.user_id == userId && r.device_id == device.device_id)
      (fun r => { r with device := device })
      ⟨userId, device.device_id, device⟩ st.user_devices) }

/-- `setUserDevices`: one transaction marking the user not-outdated,
deleting all of their device rows and inserting the new list. -/
def setUserDevices (st : SqliteCryptoStorageProvider) (userId : String)
    (devices : List UserDevice) : SqliteCryptoStorageProvider :=
  devices.foldl (fun s d => userDeviceUpsert s userId d)
    (userDevicesDelete (userUpsert st userId false) userId)

/-- `getUserDevices`: `userDevicesSelect` + `.all()`, parsing each blob. -/
def getUserDevices (st : SqliteCryptoStorageProvider) (userId : String) : List UserDevice :=
  (st.user_devices.filter (fun r => r.user_id == userId)).map (·.device)

/-- `getUserDevice`: `userDeviceSelect` + `.get()`. -/
def getUserDevice (st : SqliteCryptoStorageProvider) (userId deviceId : String) :
    Option UserDevice :=
  (st.user_devices.find? (fun r => r.user_id == userId && r.device_id == deviceId)).map (·.device)

/-- `flagUsersOutdated`: one transaction upserting `outdated = 1` for each
listed user. -/
def flagUsersOutdated (st : SqliteCryptoStorageProvider) (userIds : List String) :
    SqliteCryptoStorageProvider :=
  userIds.foldl (fun s uid => userUpsert s uid true) st

/-- `isUserOutdated`: the stored flag, defaulting to `true` when the user
row is absent. -/
def isUserOutdated (st : SqliteCryptoStorageProvider) (userId : String) : Bool :=
  match st.users.find? (fun r => r.user_id == userId) with
  | some r => r.outdated
  | none => true

/-- One row's view of `obGroupSessionMarkAllInactive`: rows of the room
get `current = 0`, all other rows are untouched. -/
def markInactiveRow (roomId : String) (r : OutboundGroupSessionRow) : OutboundGroupSessionRow :=
  if r.room_id == roomId then { r with current := false } else r

/-- The `obGroupSessionMarkAllInactive` prepared statement:
`UPDATE outbound_group_sessions SET current = 0 WHERE room_id = @roomId`. -/
def obGroupSessionMarkAllInactive (st : SqliteCryptoStorageProvider) (roomId : String) :
    SqliteCryptoStorageProvider :=
  { st with outbound_group_sessions := st.outbound_group_sessions.map (markInactiveRow roomId) }

/-- The `DO UPDATE` clause of `obGroupSessionUpsert`: every non-key
column of the conflicting row is replaced. -/
def obGroupSessionUpdateRow (s : IOutboundGroupSession) (r : OutboundGroupSessionRow) :
    OutboundGroupSessionRow :=
  { r with pickled := s.pickled, current := s.isCurrent, uses_left := s.usesLeft, expires_ts := s.expiresTs }

/-- The `obGroupSessionUpsert` prepared statement: on conflict of
`(session_id, room_id)` every non-key column is replaced. -/
def obGroupSessionUpsert (st : SqliteCryptoStorageProvider) (s : IOutboundGroupSession) :
    SqliteCryptoStorageProvider :=
  { st with outbound_group_sessions := (upsertBy
      (fun r => r.session_id == s.sessionId && r.room_id == s.roomId)
      (obGroupSessionUpdateRow s)
      ⟨s.sessionId, s.roomId, s.isCurrent, s.pickled, s.usesLeft, s.expiresTs⟩
      st.outbound_group_sessions) }

/-- `storeOutboundGroupSession`: one transaction that, when the incoming
session is current, first demotes every session in its room, then
upserts the row. -/
def storeOutboundGroupSession (st : SqliteCryptoStorageProvider)
    (s : IOutboundGroupSession) : SqliteCryptoStorageProvider :=
  obGroupSessionUpsert (if s.isCurrent then obGroupSessionMarkAllInactive st s.roomId else st) s

/-- How a selected `outbound_group_sessions` row is turned back into an
`IOutboundGroupSession` (`isCurrent: result.current === 1`). -/
def rowToOutboundGroupSession (r : OutboundGroupSessionRow) : IOutboundGroupSession :=
  ⟨r.session_id, r.room_id, r.pickled, r.current, r.uses_left, r.expires_ts⟩

/-- `getOutboundGroupSession`: `obGroupSessionSelect` + `.get()`. -/
def getOutboundGroupSession (st : SqliteCryptoStorageProvider) (sessionId roomId : String) :
    Option IOutboundGroupSession :=
  (st.outbound_group_sessions.find?
      (fun r => r.session_id == sessionId && r.room_id == roomId)).map
    rowToOutboundGroupSession

/-- `getCurrentOutboundGroupSession`: `obGroupCurrentSessionSelect`
(`WHERE room_id = @roomId AND current = 1`) + `.get()`. -/
def getCurrentOutboundGroupSession (st : SqliteCryptoStorageProvider) (roomId : String) :
    Option IOutboundGroupSession :=
  (st.outbound_group_sessions.find? (fun r => r.room_id == roomId && r.current)).map
    rowToOutboundGroupSession

/-- One row's view of `obGroupSessionMarkUsage`
(`SET uses_left = uses_left - 1` on the keyed row). -/
def markUsageRow (sessionId roomId : String) (r : OutboundGroupSessionRow) :
    OutboundGroupSessionRow :=
  if r.session_id == sessionId && r.room_id == roomId
    then { r with uses_left := r.uses_left - 1 } else r

/-- `useOutboundGroupSession`: the `obGroupSessionMarkUsage` statement
applied to every row (only the keyed row changes). -/
def useOutboundGroupSession (st : SqliteCryptoStorageProvider) (sessionId roomId : String) :
    SqliteCryptoStorageProvider :=
  { st with outbound_group_sessions := st.outbound_group_sessions.map (markUsageRow sessionId roomId) }

/-- The ledger row written by `storeSentOutboundGroupSession`. -/
def sentRowOf (session : IOutboundGroupSession) (index : Int) (device : UserDevice) :
    SentOutboundGroupSessionRow :=
  ⟨session.sessionId, session.roomId, index, device.user_id, device.device_id⟩

/-- `storeSentOutboundGroupSession`: the `obSentGroupSessionUpsert`
statement, `ON CONFLICT ... DO NOTHING` over the all-column primary key. -/
def storeSentOutboundGroupSession (st : SqliteCryptoStorageProvider)
    (session : IOutboundGroupSession) (index : Int) (device : UserDevice) :
    SqliteCryptoStorageProvider :=
  if sentRowOf session index device ∈ st.sent_outbound_group_sessions then st
  else { st with sent_outbound_group_sessions :=
          st.sent_outbound_group_sessions ++ [sentRowOf session index device] }

/-- `getLastSentOutboundGroupSession`: `obSentSelectLastSent` + `.get()`.
The SELECT has no ORDER BY, so `.get()` yields the first matching row in
table order. -/
def getLastSentOutboundGroupSession (st : SqliteCryptoStorageProvider)
    (userId deviceId roomId : String) : Option (String × Int) :=
  (st.sent_outbound_group_sessions.find?
      (fun r => r.user_id == userId && r.device_id == deviceId && r.room_id == roomId)).map
    (fun r => (r.session_id, r.session_index))

/-- `storeOlmSession`: the `olmSessionUpsert` statement, replacing the
timestamp and pickle on conflict of `(user_id, device_id, session_id)`. -/
def storeOlmSession (st : SqliteCryptoStorageProvider) (userId deviceId : String)
    (session : IOlmSession) : SqliteCryptoStorageProvider :=
  { st with olm_sessions := (upsertBy
      (fun r => r.user_id == userId && r.device_id == deviceId &&
                r.session_id == session.sessionId)
      (fun r => { r with last_decryption_ts := session.lastDecryptionTs, pickled := session.pickled })
      ⟨userId, deviceId, session.sessionId, session.lastDecryptionTs, session.pickled⟩
      st.olm_sessions) }

/-- One step of `ORDER BY last_decryption_ts DESC LIMIT 1`: keep the row
with the later timestamp (the earlier row in table order on ties). -/
def maxRowOpt (r : OlmSessionRow) : Option OlmSessionRow → OlmSessionRow
  | none => r
  | some m => if r.last_decryption_ts < m.last_decryption_ts then m else r

/-- `ORDER BY last_decryption_ts DESC LIMIT 1`: a row of maximal
timestamp (the earliest such row in table order on ties). -/
def maxByTs : List OlmSessionRow → Option OlmSessionRow
  | [] => none
  | r :: l => some (maxRowOpt r (maxByTs l))

/-- The `olm_sessions` rows matching `(userId, deviceId)`. -/
def olmSessionsFor (st : SqliteCryptoStorageProvider) (userId deviceId : String) :
    List OlmSessionRow :=
  st.olm_sessions.filter (fun r => r.user_id == userId && r.device_id == deviceId)

/-- How a selected `olm_sessions` row is turned back into an `IOlmSession`. -/
def rowToOlmSession (r : OlmSessionRow) : IOlmSession :=
  ⟨r.session_id, r.pickled, r.last_decryption_ts⟩

/-- `getCurrentOlmSession`: `olmSessionCurrentSelect` + `.get()`. -/
def getCurrentOlmSession (st : SqliteCryptoStorageProvider) (userId deviceId : String) :
    Option IOlmSession :=
  (maxByTs (olmSessionsFor st userId deviceId)).map rowToOlmSession

/-- The whole-history view of the outbound group session table: the state
reached from a fresh provider by a sequence of `storeOutboundGroupSession`
calls. -/
def storeAll (l : List IOutboundGroupSession) : SqliteCryptoStorageProvider :=
  l.foldl storeOutboundGroupSession empty

/-- The session id of the most recent store call in `l` that targeted
`roomId` with `isCurrent = true`, if any. -/
def lastCurrentId (l : List IOutboundGroupSession) (roomId : String) : Option String :=
  (l.reverse.find? (fun s => s.roomId == roomId && s.isCurrent)).map (·.sessionId)

/-- Iterated `useOutboundGroupSession` on one key. -/
def useOutboundGroupSessionN (st : SqliteCryptoStorageProvider) (sessionId roomId : String) :
    Nat → SqliteCryptoStorageProvider
  | 0 => st
  | n + 1 => useOutboundGroupSession (useOutboundGroupSessionN st sessionId roomId n) sessionId roomId

/-- Concrete fixture: an outbound session stored as current in room `!r`. -/
def sessA : IOutboundGroupSession := ⟨"sA", "!r", "pA", true, 5, 100⟩

/-- Concrete fixture: a second current outbound session for room `!r`. -/
def sessB : IOutboundGroupSession := ⟨"sB", "!r", "pB", true, 10, 200⟩

/-- Concrete fixture: a non-current store of a third session for `!r`. -/
def sessC : IOutboundGroupSession := ⟨"sC", "!r", "pC", false, 7, 300⟩

/-- Concrete fixture: a device record. -/
def devW : UserDevice := ⟨"@u:example.org", "DEVICE", "keyblob"⟩

/-- Concrete fixture: a ledger holding first `(sA, 0)` and then `(sB, 1)`
for the same `(user, device, room)`. -/
def stLedger : SqliteCryptoStorageProvider :=
  storeSentOutboundGroupSession (storeSentOutboundGroupSession empty sessA 0 devW) sessB 1 devW

/-- Concrete fixture: a store holding one outbound session with one use
left. -/
def stUses : SqliteCryptoStorageProvider := storeOutboundGroupSession empty sessA

/-- Concrete fixture: two device records sharing a device id. -/
def devX : UserDevice := ⟨"@u:example.org", "DEVICE", "first"⟩

/-- Concrete fixture: the other record with the same device id. -/
def devY : UserDevice := ⟨"@u:example.org", "DEVICE", "second"⟩

/-- Concrete fixture: olm sessions with timestamps 10, 30 and 20 for one
device. -/
def stOlm : SqliteCryptoStorageProvider :=
  storeOlmSession (storeOlmSession (storeOlmSession empty "@u:example.org" "DEVICE" ⟨"o1", "q1", 10⟩)
    "@u:example.org" "DEVICE" ⟨"o2", "q2", 30⟩) "@u:example.org" "DEVICE" ⟨"o3", "q3", 20⟩

/-- Concrete fixture: room `!r` has current session `sA`, and room `!s`
has current session `sD`. -/
def stFrame : SqliteCryptoStorageProvider :=
  storeOutboundGroupSession (storeOutboundGroupSession empty sessA) ⟨"sD", "!s", "pD", true, 3, 50⟩

/-- Concrete fixture: a device with id `D1`. -/
def devP : UserDevice := ⟨"@u:example.org", "D1", "k1"⟩

/-- Concrete fixture: a device with id `D2`. -/
def devQ : UserDevice := ⟨"@u:example.org", "D2", "k2"⟩

/-- Concrete fixture: a provider whose user already has a device `OLD`. -/
def stPrior : SqliteCryptoStorageProvider :=
  setUserDevices empty "@u:example.org" [⟨"@u:example.org", "OLD", "old"⟩]

end SqliteCryptoStorageProvider

section UpsertLemmas

variable {α : Type} {k : α → Bool} {upd : α → α} {fresh : α} {p : α → Bool}

theorem mem_upsertBy {l : List α} {a : α} (h : a ∈ upsertBy k upd fresh l) :
    a ∈ l ∨ (∃ b ∈ l, k b = true ∧ a = upd b) ∨ a = fresh := by
  induction l with
  | nil =>
    simp only [upsertBy, List.mem_singleton] at h
    exact Or.inr (Or.inr h)
  | cons c l ih =>
    simp only [upsertBy] at h
    by_cases hk : k c
    · rw [if_pos hk] at h
      rcases List.mem_cons.mp h with h1 | h1
      · exact Or.inr (Or.inl ⟨c, List.mem_cons_self c l, hk, h1⟩)
      · exact Or.inl (List.mem_cons_of_mem _ h1)
    · rw [if_neg hk] at h
      rcases List.mem_cons.mp h with h1 | h1
      · exact Or.inl (h1 ▸ List.mem_cons_self c l)
      · rcases ih h1 with h2 | h2 | h2
        · exact Or.inl (List.mem_cons_of_mem _ h2)
        · obtain ⟨b, hb, hkb, hab⟩ := h2
          exact Or.inr (Or.inl ⟨b, List.mem_cons_of_mem _ hb, hkb, hab⟩)
        · exact Or.inr (Or.inr h2)

theorem upsertBy_of_forall_not {l : List α} (h : ∀ a ∈ l, k a = false) :
    upsertBy k upd fresh l = l ++ [fresh] := by
  induction l with
  | nil => rfl
  | cons c l ih =>
    have hc : k c = false := h c (List.mem_cons_self c l)
    simp only [upsertBy, hc, Bool.false_eq_true, if_false, List.cons_append]
    rw [ih (fun a ha => h a (List.mem_cons_of_mem _ ha))]

theorem find?_upsertBy_untouched {l : List α} (hf : p fresh = false)
    (hu : ∀ a, k a = true → p (upd a) = false)
    (hm : ∀ t, l.find? p = some t → k t = false) :
    (upsertBy k upd fresh l).find? p = l.find? p := by
  induction l with
  | nil => simp [upsertBy, List.find?, hf]
  | cons c l ih =>
    simp only [upsertBy]
    by_cases hk : k c
    · rw [if_pos hk]
      by_cases hp : p c
      · exact absurd hk (by simpa using hm c (by simp [List.find?, hp]))
      · simp [List.find?, hp, hu c hk]
    · rw [if_neg hk]
      by_cases hp : p c
      · simp [List.find?, hp]
      · simp only [List.find?, hp]
        exact ih (fun t ht => hm t (by simp [List.find?, hp, ht]))

theorem countP_upsertBy_le {l : List α} :
    (upsertBy k upd fresh l).countP p ≤ l.countP p + 1 := by
  induction l with
  | nil => by_cases h : p fresh <;> simp [upsertBy, List.countP_cons, h]
  | cons c l ih =>
    simp only [upsertBy]
    by_cases hk : k c
    · rw [if_pos hk]
      simp only [List.countP_cons]
      have : (if p (upd c) = true then 1 else 0) ≤ (if p c = true then 1 else 0) + 1 := by
        by_cases h1 : p (upd c) <;> by_cases h2 : p c <;> simp [h1, h2]
      omega
    · rw [if_neg hk]
      simp only [List.countP_cons]
      omega

theorem countP_upsertBy_congr {l : List α} (hf : p fresh = false)
    (hu : ∀ a, k a = true → p (upd a) = p a) :
    (upsertBy k upd fresh l).countP p = l.countP p := by
  induction l with
  | nil => simp [upsertBy, List.countP_cons, hf]
  | cons c l ih =>
    simp only [upsertBy]
    by_cases hk : k c
    · rw [if_pos hk]
      simp only [List.countP_cons, hu c hk]
    · rw [if_neg hk]
      simp only [List.countP_cons, ih]

theorem countP_upsertBy_le_of_kill {l : List α} (hf : p fresh = false)
    (hu : ∀ a, k a = true → p (upd a) = false) :
    (upsertBy k upd fresh l).countP p ≤ l.countP p := by
  induction l with
  | nil => simp [upsertBy, List.countP_cons, hf]
  | cons c l ih =>
    simp only [upsertBy]
    by_cases hk : k c
    · rw [if_pos hk]
      simp only [List.countP_cons, hu c hk]
      by_cases hp : p c <;> simp [hp]
    · rw [if_neg hk]
      simp only [List.countP_cons]
      omega

theorem find?_upsertBy_key {l : List α} (hf : k fresh = true)
    (hu : ∀ a, k (upd a) = k a) :
    (upsertBy k upd fresh l).find? k = some ((l.find? k).elim fresh upd) := by
  induction l with
  | nil => simp [upsertBy, List.find?, hf]
  | cons c l ih =>
    by_cases hk : k c
    · simp [upsertBy, hk, List.find?, hu c]
    · simp only [upsertBy, hk, Bool.false_eq_true, if_false]
      simp only [List.find?, hk]
      exact ih

end UpsertLemmas

namespace SqliteCryptoStorageProvider

theorem maxByTs_eq_none {l : List OlmSessionRow} : maxByTs l = none ↔ l = [] := by
  cases l <;> simp [maxByTs]

theorem maxByTs_spec {l : List OlmSessionRow} {m : OlmSessionRow} (h : maxByTs l = some m) :
    m ∈ l ∧ ∀ x ∈ l, x.last_decryption_ts ≤ m.last_decryption_ts := by
  induction l generalizing m with
  | nil => simp [maxByTs] at h
  | cons r t ih =>
    simp only [maxByTs, Option.some_inj] at h
    cases ht : maxByTs t with
    | none =>
      simp only [ht, maxRowOpt] at h
      subst h
      have ht0 : t = [] := maxByTs_eq_none.mp ht
      subst ht0
      simp
    | some m0 =>
      simp only [ht, maxRowOpt] at h
      obtain ⟨hm0, hle⟩ := ih ht
      by_cases hc : r.last_decryption_ts < m0.last_decryption_ts
      · rw [if_pos hc] at h
        subst h
        refine ⟨List.mem_cons_of_mem _ hm0, ?_⟩
        intro x hx
        rcases List.mem_cons.mp hx with h1 | h1
        · subst h1; omega
        · exact hle x h1
      · rw [if_neg hc] at h
        subst h
        refine ⟨List.mem_cons_self r t, ?_⟩
        intro x hx
        rcases List.mem_cons.mp hx with h1 | h1
        · subst h1; omega
        · have := hle x h1; omega

/-- C6: `getCurrentOlmSession(u, d)` is absent exactly when no session is
stored for `(u, d)`, and otherwise returns a stored session of that pair
whose `lastDecryptionTs` is maximal among all sessions stored for it. -/
theorem getCurrentOlmSession_max (st : SqliteCryptoStorageProvider) (u d : String) :
    (getCurrentOlmSession st u d = none ↔ olmSessionsFor st u d = []) ∧
    (∀ s, getCurrentOlmSession st u d = some s →
      s ∈ (olmSessionsFor st u d).map rowToOlmSession ∧
      ∀ row ∈ olmSessionsFor st u d, row.last_decryption_ts ≤ s.lastDecryptionTs) := by
  constructor
  · rw [getCurrentOlmSession, Option.map_eq_none']
    exact maxByTs_eq_none
  · intro s hs
    rw [getCurrentOlmSession, Option.map_eq_some'] at hs
    obtain ⟨m, hm, rfl⟩ := hs
    obtain ⟨hmem, hle⟩ := maxByTs_spec hm
    exact ⟨List.mem_map_of_mem _ hmem, fun row hr => hle row hr⟩

/-- C6 witness: on the spec's `[10, 30, 20]` example the returned session
is the stored one with timestamp 30, and a fresh provider returns an
absent result. -/
theorem getCurrentOlmSession_max_witness :
    getCurrentOlmSession empty "@u:example.org" "DEVICE" = none ∧
    (⟨"o2", "q2", 30⟩ : IOlmSession) ∈
      (olmSessionsFor stOlm "@u:example.org" "DEVICE").map rowToOlmSession ∧
    (⟨"@u:example.org", "DEVICE", "o1", 10, "q1"⟩ : OlmSessionRow).last_decryption_ts ≤
      (⟨"o2", "q2", 30⟩ : IOlmSession).lastDecryptionTs :=
  ⟨(getCurrentOlmSession_max empty "@u:example.org" "DEVICE").1.mpr (by decide),
   ((getCurrentOlmSession_max stOlm "@u:example.org" "DEVICE").2 ⟨"o2", "q2", 30⟩ (by decide)).1,
   ((getCurrentOlmSession_max stOlm "@u:example.org" "DEVICE").2 ⟨"o2", "q2", 30⟩ (by decide)).2
     ⟨"@u:example.org", "DEVICE", "o1", 10, "q1"⟩ (by decide)⟩

/-- C8: storing a room config and reading it back returns the stored
value, and a second store for the same room replaces the whole config. -/
theorem storeRoom_getRoom_roundtrip (st : SqliteCryptoStorageProvider) (r : String)
    (c c2 : RoomConfig) :
    getRoom (storeRoom st r c) r = some c ∧
    getRoom (storeRoom (storeRoom st r c) r c2) r = some c2 := by
  have key : ∀ (st : SqliteCryptoStorageProvider) (c : RoomConfig),
      getRoom (storeRoom st r c) r = some c := by
    intro st c
    rw [getRoom, storeRoom]
    rw [find?_upsertBy_key (by simp) (fun a => by simp)]
    cases st.rooms.find? (fun row => row.room_id == r) <;> simp [Option.elim]
  exact ⟨key st c, key _ c2⟩

theorem storeSentOutboundGroupSession_of_mem (st : SqliteCryptoStorageProvider)
    (s : IOutboundGroupSession) (i : Int) (dev : UserDevice)
    (h : sentRowOf s i dev ∈ st.sent_outbound_group_sessions) :
    storeSentOutboundGroupSession st s i dev = st := by
  simp [storeSentOutboundGroupSession, h]

theorem storeSentOutboundGroupSession_of_not_mem (st : SqliteCryptoStorageProvider)
    (s : IOutboundGroupSession) (i : Int) (dev : UserDevice)
    (h : sentRowOf s i dev ∉ st.sent_outbound_group_sessions) :
    storeSentOutboundGroupSession st s i dev = { st with sent_outbound_group_sessions :=
      st.sent_outbound_group_sessions ++ [sentRowOf s i dev] } := by
  simp [storeSentOutboundGroupSession, h]

theorem mem_storeSentOutboundGroupSession (st : SqliteCryptoStorageProvider)
    (s : IOutboundGroupSession) (i : Int) (dev : UserDevice) :
    sentRowOf s i dev ∈ (storeSentOutboundGroupSession st s i dev).sent_outbound_group_sessions := by
  by_cases h : sentRowOf s i dev ∈ st.sent_outbound_group_sessions <;>
    simp [storeSentOutboundGroupSession, h]

/-- C4: `storeSentOutboundGroupSession` is idempotent: a second call with
identical arguments leaves the state unchanged, and from a state with no
ledger row for the key the call leaves exactly one such row. -/
theorem storeSentOutboundGroupSession_idempotent (st : SqliteCryptoStorageProvider)
    (s : IOutboundGroupSession) (i : Int) (dev : UserDevice) :
    storeSentOutboundGroupSession (storeSentOutboundGroupSession st s i dev) s i dev =
      storeSentOutboundGroupSession st s i dev ∧
    (st.sent_outbound_group_sessions.countP (· == sentRowOf s i dev) = 0 →
      (storeSentOutboundGroupSession st s i dev).sent_outbound_group_sessions.countP
        (· == sentRowOf s i dev) = 1) := by
  constructor
  · exact storeSentOutboundGroupSession_of_mem _ s i dev
      (mem_storeSentOutboundGroupSession st s i dev)
  · intro h0
    have hnot : sentRowOf s i dev ∉ st.sent_outbound_group_sessions := by
      intro hmem
      have := (List.countP_eq_zero.mp h0) _ hmem
      simp at this
    rw [storeSentOutboundGroupSession_of_not_mem st s i dev hnot]
    simp [List.countP_append, h0]

/-- C4 witness: the concrete double call on a fresh provider. -/
theorem storeSentOutboundGroupSession_idempotent_witness :
    storeSentOutboundGroupSession (storeSentOutboundGroupSession empty sessA 0 devW) sessA 0 devW =
      storeSentOutboundGroupSession empty sessA 0 devW ∧
    (storeSentOutboundGroupSession empty sessA 0 devW).sent_outbound_group_sessions.countP
      (· == sentRowOf sessA 0 devW) = 1 :=
  ⟨(storeSentOutboundGroupSession_idempotent empty sessA 0 devW).1,
   (storeSentOutboundGroupSession_idempotent empty sessA 0 devW).2 (by decide)⟩

end SqliteCryptoStorageProvider

namespace SqliteCryptoStorageProvider

/-- C9: every get accessor models not-found as an absent result: when the
requested key was never stored in the corresponding table, the accessor
returns `none` (the model of `null`/`undefined`) rather than raising. -/
theorem getters_absent (st : SqliteCryptoStorageProvider) (r u d sid rid : String)
    (h1 : ∀ p ∈ st.kv, p.1 ≠ "deviceId")
    (h2 : ∀ p ∈ st.kv, p.1 ≠ "pickleKey")
    (h3 : ∀ p ∈ st.kv, p.1 ≠ "pickled")
    (h4 : ∀ row ∈ st.rooms, row.room_id ≠ r)
    (h5 : ∀ row ∈ st.user_devices, ¬(row.user_id = u ∧ row.device_id = d))
    (h6 : ∀ row ∈ st.outbound_group_sessions, ¬(row.session_id = sid ∧ row.room_id = rid))
    (h7 : ∀ row ∈ st.outbound_group_sessions, row.room_id ≠ rid)
    (h8 : ∀ row ∈ st.sent_outbound_group_sessions,
      ¬(row.user_id = u ∧ row.device_id = d ∧ row.room_id = rid))
    (h9 : ∀ row ∈ st.olm_sessions, ¬(row.user_id = u ∧ row.device_id = d)) :
    getDeviceId st = none ∧ getPickleKey st = none ∧ getPickledAccount st = none ∧
    getRoom st r = none ∧ getUserDevice st u d = none ∧
    getOutboundGroupSession st sid rid = none ∧
    getCurrentOutboundGroupSession st rid = none ∧
    getLastSentOutboundGroupSession st u d rid = none ∧
    getCurrentOlmSession st u d = none := by
  refine ⟨?_, ?_, ?_, ?_, ?_, ?_, ?_, ?_, ?_⟩
  · simp only [getDeviceId, kvSelect, Option.map_eq_none', List.find?_eq_none]
    intro x hx
    simpa using h1 x hx
  · simp only [getPickleKey, kvSelect, Option.map_eq_none', List.find?_eq_none]
    intro x hx
    simpa using h2 x hx
  · simp only [getPickledAccount, kvSelect, Option.map_eq_none', List.find?_eq_none]
    intro x hx
    simpa using h3 x hx
  · simp only [getRoom, Option.map_eq_none', List.find?_eq_none]
    intro x hx
    simpa using h4 x hx
  · simp only [getUserDevice, Option.map_eq_none', List.find?_eq_none]
    intro x hx
    simp only [Bool.and_eq_true, beq_iff_eq]
    exact h5 x hx
  · simp only [getOutboundGroupSession, Option.map_eq_none', List.find?_eq_none]
    intro x hx
    simp only [Bool.and_eq_true, beq_iff_eq]
    exact h6 x hx
  · simp only [getCurrentOutboundGroupSession, Option.map_eq_none', List.find?_eq_none]
    intro x hx
    simp only [Bool.and_eq_true, beq_iff_eq]
    intro hc
    exact h7 x hx hc.1
  · simp only [getLastSentOutboundGroupSession, Option.map_eq_none', List.find?_eq_none]
    intro x hx
    simp only [Bool.and_eq_true, beq_iff_eq]
    have := h8 x hx
    tauto
  · have hnil : olmSessionsFor st u d = [] := by
      rw [olmSessionsFor, List.filter_eq_nil_iff]
      intro x hx
      simp only [Bool.and_eq_true, beq_iff_eq]
      exact h9 x hx
    rw [getCurrentOlmSession, hnil]
    rfl

/-- C9 witness: all nine accessors on a fresh provider. -/
theorem getters_absent_witness :
    getDeviceId empty = none ∧ getPickleKey empty = none ∧ getPickledAccount empty = none ∧
    getRoom empty "!r" = none ∧ getUserDevice empty "@u:example.org" "DEVICE" = none ∧
    getOutboundGroupSession empty "sA" "!r" = none ∧
    getCurrentOutboundGroupSession empty "!r" = none ∧
    getLastSentOutboundGroupSession empty "@u:example.org" "DEVICE" "!r" = none ∧
    getCurrentOlmSession empty "@u:example.org" "DEVICE" = none :=
  getters_absent empty "!r" "@u:example.org" "DEVICE" "sA" "!r"
    (by simp [empty]) (by simp [empty]) (by simp [empty]) (by simp [empty]) (by simp [empty])
    (by simp [empty]) (by simp [empty]) (by simp [empty]) (by simp [empty])

end SqliteCryptoStorageProvider

namespace SqliteCryptoStorageProvider

theorem users_userUpsert (st : SqliteCryptoStorageProvider) (u : String) (o : Bool) :
    (userUpsert st u o).users =
      upsertBy (fun r => r.user_id == u) (fun r => { r with outdated := o }) ⟨u, o⟩ st.users := rfl

theorem isUserOutdated_userUpsert_self (st : SqliteCryptoStorageProvider) (u : String) (o : Bool) :
    isUserOutdated (userUpsert st u o) u = o := by
  unfold isUserOutdated
  rw [users_userUpsert, find?_upsertBy_key (by simp) (fun a => by simp)]
  cases st.users.find? (fun r => r.user_id == u) <;> simp [Option.elim]

theorem isUserOutdated_userUpsert_other (st : SqliteCryptoStorageProvider) {u u' : String}
    (o : Bool) (h : u' ≠ u) :
    isUserOutdated (userUpsert st u' o) u = isUserOutdated st u := by
  unfold isUserOutdated
  rw [users_userUpsert, find?_upsertBy_untouched ?hf ?hu ?hm]
  case hf => simp [h]
  case hu =>
    intro a hk
    have ha : a.user_id = u' := by simpa using hk
    simp [ha, h]
  case hm =>
    intro t ht
    have hp : t.user_id = u := by simpa using List.find?_some ht
    simp [hp, Ne.symm h]

theorem isUserOutdated_flag_preserve (st : SqliteCryptoStorageProvider) (l : List String)
    (u : String) (h : isUserOutdated st u = true) :
    isUserOutdated (flagUsersOutdated st l) u = true := by
  induction l generalizing st with
  | nil => exact h
  | cons v l ih =>
    show isUserOutdated (flagUsersOutdated (userUpsert st v true) l) u = true
    apply ih
    by_cases hv : v = u
    · subst hv
      rw [isUserOutdated_userUpsert_self]
    · rw [isUserOutdated_userUpsert_other st true hv]
      exact h

theorem isUserOutdated_flag_of_mem (st : SqliteCryptoStorageProvider) (l : List String)
    (u : String) (h : u ∈ l) :
    isUserOutdated (flagUsersOutdated st l) u = true := by
  induction l generalizing st with
  | nil => simp at h
  | cons v l ih =>
    show isUserOutdated (flagUsersOutdated (userUpsert st v true) l) u = true
    by_cases hl : u ∈ l
    · exact ih _ hl
    · have hv : v = u := by
        rcases List.mem_cons.mp h with h1 | h1
        · exact h1.symm
        · exact absurd h1 hl
      subst hv
      exact isUserOutdated_flag_preserve _ l _ (isUserOutdated_userUpsert_self st v true)

/-- C7: `isUserOutdated` is true for a user never seen by the store and
for every user flagged by `flagUsersOutdated`, and it is false only when
a stored user row carries an unset outdated flag. -/
theorem isUserOutdated_spec (st : SqliteCryptoStorageProvider) (u : String) (l : List String) :
    ((∀ row ∈ st.users, row.user_id ≠ u) → isUserOutdated st u = true) ∧
    (u ∈ l → isUserOutdated (flagUsersOutdated st l) u = true) ∧
    (isUserOutdated st u = false → ∃ row ∈ st.users, row.user_id = u ∧ row.outdated = false) := by
  refine ⟨?_, ?_, ?_⟩
  · intro h
    unfold isUserOutdated
    have hn : st.users.find? (fun r => r.user_id == u) = none := by
      rw [List.find?_eq_none]
      intro x hx
      simpa using h x hx
    rw [hn]
  · exact isUserOutdated_flag_of_mem st l u
  · intro h
    unfold isUserOutdated at h
    cases hf : st.users.find? (fun r => r.user_id == u) with
    | none =>
      rw [hf] at h
      simp at h
    | some row =>
      rw [hf] at h
      refine ⟨row, List.mem_of_find?_eq_some hf, by simpa using List.find?_some hf, h⟩

/-- C7 witness: a never-seen user, a flagged user, and a user made
not-outdated by a device-list replacement. -/
theorem isUserOutdated_spec_witness :
    isUserOutdated empty "@alice:example.org" = true ∧
    isUserOutdated (flagUsersOutdated empty ["@a:example.org", "@b:example.org"])
      "@b:example.org" = true ∧
    ∃ row ∈ (setUserDevices empty "@c:example.org" []).users,
      row.user_id = "@c:example.org" ∧ row.outdated = false :=
  ⟨(isUserOutdated_spec empty "@alice:example.org" []).1 (by simp [empty]),
   (isUserOutdated_spec empty "@b:example.org" ["@a:example.org", "@b:example.org"]).2.1
     (by simp),
   (isUserOutdated_spec (setUserDevices empty "@c:example.org" []) "@c:example.org" []).2.2
     (by decide)⟩

end SqliteCryptoStorageProvider

namespace SqliteCryptoStorageProvider

theorem ogs_useOutboundGroupSession (st : SqliteCryptoStorageProvider) (sid rid : String) :
    (useOutboundGroupSession st sid rid).outbound_group_sessions =
      st.outbound_group_sessions.map (markUsageRow sid rid) := rfl

theorem getOutboundGroupSession_use (st : SqliteCryptoStorageProvider) (sid rid : String) :
    getOutboundGroupSession (useOutboundGroupSession st sid rid) sid rid =
      (getOutboundGroupSession st sid rid).map
        (fun s => { s with usesLeft := s.usesLeft - 1 }) := by
  unfold getOutboundGroupSession
  rw [ogs_useOutboundGroupSession, List.find?_map]
  have hpg : ((fun r => r.session_id == sid && r.room_id == rid) ∘ markUsageRow sid rid) =
      (fun r => r.session_id == sid && r.room_id == rid) := by
    funext a
    by_cases h : a.session_id == sid && a.room_id == rid <;> simp [markUsageRow, h]
  rw [hpg]
  cases hf : st.outbound_group_sessions.find?
      (fun r => r.session_id == sid && r.room_id == rid) with
  | none => simp
  | some a =>
    have hp := List.find?_some hf
    simp [markUsageRow, hp, rowToOutboundGroupSession]

/-- C3: after `n` calls of `useOutboundGroupSession` on a stored session
with `usesLeft = U`, the stored `usesLeft` equals `U - n`; the counter is
a plain integer, so it is never increased and not clamped at zero. -/
theorem useOutboundGroupSession_decrements (st : SqliteCryptoStorageProvider)
    (sid rid : String) (n : Nat) (s : IOutboundGroupSession)
    (h : getOutboundGroupSession st sid rid = some s) :
    getOutboundGroupSession (useOutboundGroupSessionN st sid rid n) sid rid =
      some { s with usesLeft := s.usesLeft - (n : Int) } := by
  induction n with
  | zero => simpa using h
  | succ n ih =>
    have hstep : useOutboundGroupSessionN st sid rid (n + 1) =
        useOutboundGroupSession (useOutboundGroupSessionN st sid rid n) sid rid := rfl
    rw [hstep, getOutboundGroupSession_use, ih]
    obtain ⟨a1, a2, a3, a4, a5, a6⟩ := s
    simp only [Option.map_some', Option.some_inj, IOutboundGroupSession.mk.injEq, and_true,
      true_and]
    push_cast
    ring

/-- C3 witness: a session stored with 5 uses left reaches -2 after seven
usage recordings. -/
theorem useOutboundGroupSession_decrements_witness :
    getOutboundGroupSession (useOutboundGroupSessionN stUses "sA" "!r" 7) "sA" "!r" =
      some ⟨"sA", "!r", "pA", true, -2, 100⟩ := by
  rw [useOutboundGroupSession_decrements stUses "sA" "!r" 7 sessA (by decide)]
  decide

end SqliteCryptoStorageProvider

namespace SqliteCryptoStorageProvider

theorem user_devices_userDeviceUpsert (st : SqliteCryptoStorageProvider) (u : String)
    (dev : UserDevice) :
    (userDeviceUpsert st u dev).user_devices =
      upsertBy (fun r => r.user_id == u && r.device_id == dev.device_id)
        (fun r => { r with device := dev }) ⟨u, dev.device_id, dev⟩ st.user_devices := rfl

theorem users_foldl_userDeviceUpsert (L : List UserDevice) (st : SqliteCryptoStorageProvider)
    (u : String) :
    (L.foldl (fun s d => userDeviceUpsert s u d) st).users = st.users := by
  induction L generalizing st with
  | nil => rfl
  | cons d L ih => exact ih (userDeviceUpsert st u d)

theorem getUserDevices_foldl (L : List UserDevice) (st : SqliteCryptoStorageProvider)
    (u : String) (hnodup : (L.map (·.device_id)).Nodup)
    (hdisj : ∀ r ∈ st.user_devices, r.user_id = u → r.device_id ∉ L.map (·.device_id)) :
    getUserDevices (L.foldl (fun s d => userDeviceUpsert s u d) st) u =
      getUserDevices st u ++ L := by
  induction L generalizing st with
  | nil => simp
  | cons d L ih =>
    have hkey : ∀ r ∈ st.user_devices,
        (fun r => r.user_id == u && r.device_id == d.device_id) r = false := by
      intro r hr
      by_cases hu : r.user_id = u
      · have hne : r.device_id ≠ d.device_id := by
          have hmem := hdisj r hr hu
          simp only [List.map_cons, List.mem_cons] at hmem
          exact fun he => hmem (Or.inl he)
        simp [hu, hne]
      · simp [hu]
    have hupd : (userDeviceUpsert st u d).user_devices =
        st.user_devices ++ [⟨u, d.device_id, d⟩] := by
      rw [user_devices_userDeviceUpsert, upsertBy_of_forall_not hkey]
    have hnodup' : (L.map (·.device_id)).Nodup := by
      simp only [List.map_cons, List.nodup_cons] at hnodup
      exact hnodup.2
    have hdmem : d.device_id ∉ L.map (·.device_id) := by
      simp only [List.map_cons, List.nodup_cons] at hnodup
      exact hnodup.1
    have hdisj' : ∀ r ∈ (userDeviceUpsert st u d).user_devices,
        r.user_id = u → r.device_id ∉ L.map (·.device_id) := by
      intro r hr hu
      rw [hupd] at hr
      rcases List.mem_append.mp hr with h1 | h1
      · intro hmem
        exact (hdisj r h1 hu) (by simp [hmem])
      · have hr2 : r = ⟨u, d.device_id, d⟩ := by simpa using h1
        subst hr2
        exact hdmem
    rw [List.foldl_cons, ih (userDeviceUpsert st u d) hnodup' hdisj']
    have hone : getUserDevices (userDeviceUpsert st u d) u = getUserDevices st u ++ [d] := by
      unfold getUserDevices
      rw [hupd, List.filter_append, List.map_append]
      simp
    rw [hone, List.append_assoc]
    simp

theorem getUserDevice_foldl_none (L : List UserDevice) (st : SqliteCryptoStorageProvider)
    (u dd : String) (hd : dd ∉ L.map (·.device_id))
    (hst : ∀ r ∈ st.user_devices, ¬(r.user_id = u ∧ r.device_id = dd)) :
    getUserDevice (L.foldl (fun s d => userDeviceUpsert s u d) st) u dd = none := by
  induction L generalizing st with
  | nil =>
    simp only [List.foldl_nil, getUserDevice, Option.map_eq_none', List.find?_eq_none]
    intro x hx
    simp only [Bool.and_eq_true, beq_iff_eq]
    exact hst x hx
  | cons d L ih =>
    rw [List.foldl_cons]
    have hd' : dd ∉ L.map (·.device_id) := by
      simp only [List.map_cons, List.mem_cons] at hd
      exact fun hmem => hd (Or.inr hmem)
    have hdne : dd ≠ d.device_id := by
      simp only [List.map_cons, List.mem_cons] at hd
      exact fun he => hd (Or.inl he)
    apply ih _ hd'
    intro r hr
    rw [user_devices_userDeviceUpsert] at hr
    rcases mem_upsertBy hr with h1 | h1 | h1
    · exact hst r h1
    · obtain ⟨b, hb, _, hrb⟩ := h1
      subst hrb
      exact hst b hb
    · subst h1
      intro hc
      exact hdne hc.2.symm

/-- C5 (amended): for a device list whose device ids are pairwise
distinct, `setUserDevices(u, L)` makes `getUserDevices(u)` return exactly
the devices of `L`, leaves no device id outside `L` queryable via
`getUserDevice`, and marks the user not-outdated. -/
theorem setUserDevices_spec (st : SqliteCryptoStorageProvider) (u : String)
    (L : List UserDevice) (h : (L.map (·.device_id)).Nodup) :
    getUserDevices (setUserDevices st u L) u = L ∧
    (∀ d, d ∉ L.map (·.device_id) → getUserDevice (setUserDevices st u L) u d = none) ∧
    isUserOutdated (setUserDevices st u L) u = false := by
  have hbase : ∀ r ∈ (userDevicesDelete (userUpsert st u false) u).user_devices,
      r.user_id ≠ u := by
    intro r hr
    have := (List.mem_filter.mp hr).2
    simpa using this
  refine ⟨?_, ?_, ?_⟩
  · rw [setUserDevices, getUserDevices_foldl L _ u h
      (fun r hr hu => absurd hu (hbase r hr))]
    have hnil : getUserDevices (userDevicesDelete (userUpsert st u false) u) u = [] := by
      unfold getUserDevices
      rw [List.filter_eq_nil_iff.mpr (fun a ha => by simp [hbase a ha])]
      rfl
    rw [hnil]
    simp
  · intro d hd
    rw [setUserDevices]
    exact getUserDevice_foldl_none L _ u d hd (fun r hr hc => (hbase r hr) hc.1)
  · have husers : (setUserDevices st u L).users = (userUpsert st u false).users :=
      users_foldl_userDeviceUpsert L _ u
    have hself := isUserOutdated_userUpsert_self st u false
    unfold isUserOutdated at hself ⊢
    rw [husers]
    exact hself

/-- C5 counterexample: a device list carrying two records with the same
device id is collapsed by the upsert, so `getUserDevices` does not return
the devices of `L` for every list `L`. -/
theorem setUserDevices_duplicate_counterexample :
    getUserDevices (setUserDevices empty "@u:example.org" [devX, devY]) "@u:example.org" ≠
      [devX, devY] ∧
    getUserDevices (setUserDevices empty "@u:example.org" [devX, devY]) "@u:example.org" =
      [devY] := by decide

/-- C5 witness: replacing a previously stored device set with two
distinct-id devices. -/
theorem setUserDevices_spec_witness :
    getUserDevices (setUserDevices stPrior "@u:example.org" [devP, devQ]) "@u:example.org" =
      [devP, devQ] ∧
    getUserDevice (setUserDevices stPrior "@u:example.org" [devP, devQ]) "@u:example.org"
      "OLD" = none ∧
    isUserOutdated (setUserDevices stPrior "@u:example.org" [devP, devQ]) "@u:example.org" =
      false :=
  ⟨(setUserDevices_spec stPrior "@u:example.org" [devP, devQ] (by decide)).1,
   (setUserDevices_spec stPrior "@u:example.org" [devP, devQ] (by decide)).2.1 "OLD"
     (by decide),
   (setUserDevices_spec stPrior "@u:example.org" [devP, devQ] (by decide)).2.2⟩

end SqliteCryptoStorageProvider

namespace SqliteCryptoStorageProvider

theorem ogs_obGroupSessionUpsert (st : SqliteCryptoStorageProvider)
    (s : IOutboundGroupSession) :
    (obGroupSessionUpsert st s).outbound_group_sessions =
      upsertBy (fun r => r.session_id == s.sessionId && r.room_id == s.roomId)
        (obGroupSessionUpdateRow s)
        ⟨s.sessionId, s.roomId, s.isCurrent, s.pickled, s.usesLeft, s.expiresTs⟩
        st.outbound_group_sessions := rfl

theorem storeOutboundGroupSession_not_current (st : SqliteCryptoStorageProvider)
    (s : IOutboundGroupSession) (h : s.isCurrent = false) :
    storeOutboundGroupSession st s = obGroupSessionUpsert st s := by
  rw [storeOutboundGroupSession, h]
  simp

/-- C10: storing a session with `isCurrent = false` modifies only the row
keyed by its `(sessionId, roomId)`: every other key reads back unchanged,
and the current-session lookup of any room is unchanged whenever its
result was not the stored session itself. -/
theorem storeOutboundGroupSession_frame (st : SqliteCryptoStorageProvider)
    (s : IOutboundGroupSession) (h : s.isCurrent = false) :
    (∀ sid rid : String, ¬(sid = s.sessionId ∧ rid = s.roomId) →
      getOutboundGroupSession (storeOutboundGroupSession st s) sid rid =
        getOutboundGroupSession st sid rid) ∧
    (∀ r : String,
      (getCurrentOutboundGroupSession st r).all (fun t => t.sessionId != s.sessionId) = true →
      getCurrentOutboundGroupSession (storeOutboundGroupSession st s) r =
        getCurrentOutboundGroupSession st r) := by
  have hstore := storeOutboundGroupSession_not_current st s h
  constructor
  · intro sid rid hne
    have hfalse : (s.sessionId == sid && s.roomId == rid) = false := by
      by_cases h1 : s.sessionId = sid
      · by_cases h2 : s.roomId = rid
        · exact absurd ⟨h1.symm, h2.symm⟩ hne
        · simp [h2]
      · simp [h1]
    have hfalse2 : (sid == s.sessionId && rid == s.roomId) = false := by
      by_cases h1 : sid = s.sessionId
      · by_cases h2 : rid = s.roomId
        · exact absurd ⟨h1, h2⟩ hne
        · simp [h2]
      · simp [h1]
    rw [hstore]
    unfold getOutboundGroupSession
    rw [ogs_obGroupSessionUpsert, find?_upsertBy_untouched ?hf ?hu ?hm]
    case hf => simpa using hfalse
    case hu =>
      intro a hk
      have hks : a.session_id = s.sessionId ∧ a.room_id = s.roomId := by simpa using hk
      show (a.session_id == sid && a.room_id == rid) = false
      rw [hks.1, hks.2]
      exact hfalse
    case hm =>
      intro t ht
      have hp : t.session_id = sid ∧ t.room_id = rid := by simpa using List.find?_some ht
      show (t.session_id == s.sessionId && t.room_id == s.roomId) = false
      rw [hp.1, hp.2]
      exact hfalse2
  · intro r hall
    rw [hstore]
    unfold getCurrentOutboundGroupSession
    rw [ogs_obGroupSessionUpsert, find?_upsertBy_untouched ?hf2 ?hu2 ?hm2]
    case hf2 =>
      show (s.roomId == r && s.isCurrent) = false
      simp [h]
    case hu2 =>
      intro a _
      show ((obGroupSessionUpdateRow s a).room_id == r &&
        (obGroupSessionUpdateRow s a).current) = false
      simp [obGroupSessionUpdateRow, h]
    case hm2 =>
      intro t ht
      have hcur : getCurrentOutboundGroupSession st r = some (rowToOutboundGroupSession t) := by
        unfold getCurrentOutboundGroupSession
        rw [ht]
        rfl
      rw [hcur] at hall
      have hts : t.session_id ≠ s.sessionId := by simpa [Option.all, rowToOutboundGroupSession] using hall
      simp [hts]

/-- C10 witness: a non-current store of `sC` into room `!r` leaves the row
of `sA` and the current-session lookup of `!r` unchanged. -/
theorem storeOutboundGroupSession_frame_witness :
    getOutboundGroupSession (storeOutboundGroupSession stFrame sessC) "sA" "!r" =
      getOutboundGroupSession stFrame "sA" "!r" ∧
    getCurrentOutboundGroupSession (storeOutboundGroupSession stFrame sessC) "!r" =
      getCurrentOutboundGroupSession stFrame "!r" :=
  ⟨(storeOutboundGroupSession_frame stFrame sessC rfl).1 "sA" "!r" (by decide),
   (storeOutboundGroupSession_frame stFrame sessC rfl).2 "!r" (by decide)⟩

end SqliteCryptoStorageProvider

namespace SqliteCryptoStorageProvider

theorem ogs_obGroupSessionMarkAllInactive (st : SqliteCryptoStorageProvider) (rid : String) :
    (obGroupSessionMarkAllInactive st rid).outbound_group_sessions =
      st.outbound_group_sessions.map (markInactiveRow rid) := rfl

theorem storeOutboundGroupSession_current (st : SqliteCryptoStorageProvider)
    (s : IOutboundGroupSession) (h : s.isCurrent = true) :
    storeOutboundGroupSession st s =
      obGroupSessionUpsert (obGroupSessionMarkAllInactive st s.roomId) s := by
  rw [storeOutboundGroupSession, h]
  simp

theorem store_current_demotes (st : SqliteCryptoStorageProvider)
    (s : IOutboundGroupSession) (hs : s.isCurrent = true) :
    ∀ r ∈ (storeOutboundGroupSession st s).outbound_group_sessions,
      r.room_id = s.roomId → r.session_id ≠ s.sessionId → r.current = false := by
  intro r hr hroom hne
  rw [storeOutboundGroupSession_current st s hs, ogs_obGroupSessionUpsert] at hr
  rcases mem_upsertBy hr with h1 | h1 | h1
  · rw [ogs_obGroupSessionMarkAllInactive] at h1
    obtain ⟨b, hb, hrb⟩ := List.mem_map.mp h1
    by_cases hbr : b.room_id == s.roomId
    · rw [← hrb]
      simp [markInactiveRow, hbr]
    · exfalso
      have : r = b := by rw [← hrb]; simp [markInactiveRow, hbr]
      subst this
      exact absurd (by simp [hroom] : (r.room_id == s.roomId) = true) (by simpa using hbr)
  · obtain ⟨b, _, hkb, hrb⟩ := h1
    exfalso
    apply hne
    have hbs : b.session_id = s.sessionId := by
      have := hkb
      simp only [Bool.and_eq_true, beq_iff_eq] at this
      exact this.1
    rw [hrb]
    simpa [obGroupSessionUpdateRow] using hbs
  · exfalso
    apply hne
    rw [h1]

theorem lastCurrentId_append (l : List IOutboundGroupSession) (s : IOutboundGroupSession)
    (r : String) :
    lastCurrentId (l ++ [s]) r =
      if s.roomId == r && s.isCurrent then some s.sessionId else lastCurrentId l r := by
  unfold lastCurrentId
  rw [List.reverse_append]
  by_cases hp : (s.roomId == r && s.isCurrent) = true
  · simp [List.find?_cons_of_pos, hp]
  · simp only [Bool.not_eq_true] at hp
    simp [List.find?_cons_of_neg, hp]

theorem countCurrent_store_le (st : SqliteCryptoStorageProvider)
    (s : IOutboundGroupSession) (rid : String)
    (h : st.outbound_group_sessions.countP (fun r => r.room_id == rid && r.current) ≤ 1) :
    (storeOutboundGroupSession st s).outbound_group_sessions.countP
      (fun r => r.room_id == rid && r.current) ≤ 1 := by
  by_cases hs : s.isCurrent = true
  · rw [storeOutboundGroupSession_current st s hs, ogs_obGroupSessionUpsert]
    by_cases hrid : rid = s.roomId
    · subst hrid
      have hmark : (obGroupSessionMarkAllInactive st s.roomId).outbound_group_sessions.countP
          (fun r => r.room_id == s.roomId && r.current) = 0 := by
        rw [ogs_obGroupSessionMarkAllInactive, List.countP_map, List.countP_eq_zero]
        intro a _
        by_cases hb : a.room_id = s.roomId <;> simp [markInactiveRow, hb]
      refine le_trans countP_upsertBy_le ?_
      rw [hmark]
    · have hsr : s.roomId ≠ rid := fun he => hrid he.symm
      have hmark : (obGroupSessionMarkAllInactive st s.roomId).outbound_group_sessions.countP
          (fun r => r.room_id == rid && r.current) =
          st.outbound_group_sessions.countP (fun r => r.room_id == rid && r.current) := by
        rw [ogs_obGroupSessionMarkAllInactive, List.countP_map]
        apply List.countP_congr
        intro a _
        by_cases hb : a.room_id = s.roomId
        · simp [markInactiveRow, hb, hsr]
        · simp [markInactiveRow, hb]
      rw [countP_upsertBy_congr ?hf ?hu, hmark]
      · exact h
      case hf => simp [hsr]
      case hu =>
        intro a hk
        have has : a.room_id = s.roomId := by
          simp only [Bool.and_eq_true, beq_iff_eq] at hk
          exact hk.2
        have hbe : (s.roomId == rid) = false := beq_false_of_ne hsr
        simp [obGroupSessionUpdateRow, has, hbe]
  · have hs' : s.isCurrent = false := by simpa using hs
    rw [storeOutboundGroupSession_not_current st s hs', ogs_obGroupSessionUpsert]
    refine le_trans (countP_upsertBy_le_of_kill ?_ ?_) h
    · simp [hs']
    · intro a _
      simp [obGroupSessionUpdateRow, hs']

theorem good_store (st : SqliteCryptoStorageProvider) (s : IOutboundGroupSession)
    (l : List IOutboundGroupSession) (rid : String)
    (h : ∀ r ∈ st.outbound_group_sessions, r.room_id = rid → r.current = true →
      some r.session_id = lastCurrentId l rid) :
    ∀ r ∈ (storeOutboundGroupSession st s).outbound_group_sessions,
      r.room_id = rid → r.current = true →
      some r.session_id = lastCurrentId (l ++ [s]) rid := by
  intro r hr hroom hcur
  rw [lastCurrentId_append]
  by_cases hs : s.isCurrent = true
  · by_cases hrid : s.roomId = rid
    · rw [if_pos (by simp [hrid, hs])]
      by_cases hne : r.session_id = s.sessionId
      · rw [hne]
      · have hdem := store_current_demotes st s hs r hr (by rw [hroom, hrid]) hne
        rw [hdem] at hcur
        simp at hcur
    · rw [if_neg (by simp [hrid])]
      rw [storeOutboundGroupSession_current st s hs, ogs_obGroupSessionUpsert] at hr
      rcases mem_upsertBy hr with h1 | h1 | h1
      · rw [ogs_obGroupSessionMarkAllInactive] at h1
        obtain ⟨b, hb, hrb⟩ := List.mem_map.mp h1
        by_cases hbr : b.room_id == s.roomId
        · exfalso
          have : r.current = false := by rw [← hrb]; simp [markInactiveRow, hbr]
          rw [this] at hcur
          simp at hcur
        · have hreq : r = b := by rw [← hrb]; simp [markInactiveRow, hbr]
          subst hreq
          exact h r hb hroom hcur
      · exfalso
        obtain ⟨b, _, hkb, hrb⟩ := h1
        have hbs : b.room_id = s.roomId := by
          simp only [Bool.and_eq_true, beq_iff_eq] at hkb
          exact hkb.2
        apply hrid
        rw [← hroom, hrb]
        simpa [obGroupSessionUpdateRow] using hbs.symm
      · exfalso
        apply hrid
        rw [← hroom, h1]
  · have hs' : s.isCurrent = false := by simpa using hs
    rw [if_neg (by simp [hs'])]
    rw [storeOutboundGroupSession_not_current st s hs', ogs_obGroupSessionUpsert] at hr
    rcases mem_upsertBy hr with h1 | h1 | h1
    · exact h r h1 hroom hcur
    · exfalso
      obtain ⟨b, _, _, hrb⟩ := h1
      have : r.current = false := by rw [hrb]; simp [obGroupSessionUpdateRow, hs']
      rw [this] at hcur
      simp at hcur
    · exfalso
      have : r.current = false := by rw [h1]; simpa using hs'
      rw [this] at hcur
      simp at hcur

/-- C1: after any sequence of `storeOutboundGroupSession` calls from a
fresh provider, each room has at most one row with `current = 1`; any such
row belongs to the most recent store call for that room that carried
`isCurrent = true`; and a store with `isCurrent = true` demotes every
other session of its room to non-current within the same transaction. -/
theorem storeOutboundGroupSession_single_current (l : List IOutboundGroupSession)
    (rid : String) :
    (storeAll l).outbound_group_sessions.countP (fun r => r.room_id == rid && r.current) ≤ 1 ∧
    (∀ r ∈ (storeAll l).outbound_group_sessions, r.room_id = rid → r.current = true →
      some r.session_id = lastCurrentId l rid) ∧
    (∀ (st : SqliteCryptoStorageProvider) (s : IOutboundGroupSession), s.isCurrent = true →
      ∀ r ∈ (storeOutboundGroupSession st s).outbound_group_sessions,
        r.room_id = s.roomId → r.session_id ≠ s.sessionId → r.current = false) := by
  refine ⟨?_, ?_, fun st s hs => store_current_demotes st s hs⟩
  · induction l using List.reverseRecOn with
    | nil => simp [storeAll, empty]
    | append_singleton l s ih =>
      have hfold : storeAll (l ++ [s]) = storeOutboundGroupSession (storeAll l) s := by
        rw [storeAll, List.foldl_append]
        rfl
      rw [hfold]
      exact countCurrent_store_le _ s rid ih
  · induction l using List.reverseRecOn with
    | nil =>
      intro r hr
      simp [storeAll, empty] at hr
    | append_singleton l s ih =>
      have hfold : storeAll (l ++ [s]) = storeOutboundGroupSession (storeAll l) s := by
        rw [storeAll, List.foldl_append]
        rfl
      rw [hfold]
      exact good_store (storeAll l) s l rid ih

/-- C1 witness: the spec scenario — `sA` stored current, then `sB` stored
current for the same room; the current row count is at most one, the
current row is the most recently stored current session `sB`, and `sA`
reads back demoted. -/
theorem storeOutboundGroupSession_single_current_witness :
    (storeAll [sessA, sessB]).outbound_group_sessions.countP
      (fun r => r.room_id == "!r" && r.current) ≤ 1 ∧
    some "sB" = lastCurrentId [sessA, sessB] "!r" ∧
    getCurrentOutboundGroupSession (storeAll [sessA, sessB]) "!r" = some sessB ∧
    getOutboundGroupSession (storeAll [sessA, sessB]) "sA" "!r" =
      some ⟨"sA", "!r", "pA", false, 5, 100⟩ :=
  ⟨(storeOutboundGroupSession_single_current [sessA, sessB] "!r").1,
   (storeOutboundGroupSession_single_current [sessA, sessB] "!r").2.1
     ⟨"sB", "!r", true, "pB", 10, 200⟩ (by decide) (by decide) (by decide),
   by decide, by decide⟩

end SqliteCryptoStorageProvider

namespace SqliteCryptoStorageProvider

/-- C2: evaluation at the failing input. After recording `(sA, index 0)`
and then `(sB, index 1)` for the same `(user, device, room)`, the lookup
returns the earliest matching ledger row `(sA, 0)` — the SELECT has no
ORDER BY and `.get()` takes the first row — not the most recent pair
`(sB, 1)` that the spec promises. -/
theorem getLastSentOutboundGroupSession_first_row :
    getLastSentOutboundGroupSession stLedger "@u:example.org" "DEVICE" "!r" = some ("sA", 0) ∧
    getLastSentOutboundGroupSession stLedger "@u:example.org" "DEVICE" "!r" ≠ some ("sB", 1) := by
  decide

end SqliteCryptoStorageProvider
